import Mathlib

/-!
Verification of the StreamVault Telegram bot (src/telegram_bot.py, src/config.py).

The development shallowly embeds the bot's pure logic and its stateful
auto-posting pipeline.  Strings are embedded as `List Char`, JSON content
records as a structure of the fields the bot reads (a field read with
`dict.get` becomes an `Option`), the persisted posted-content document as a
structure whose per-kind entries are `Option` lists (a JSON object may lack a
key), and the two external effectful boundaries — the HTTP catalog fetch and
the Telegram send calls — as explicit outcome values / oracles supplied to the
embedded functions.  File persistence is explicit state threaded through the
pipeline.
-/

namespace StreamVault

/-- A catalog record as the bot consumes it.  `id` is the deduplication key
(`show.get('id')` — an absent key yields `none`), `title` is what `/search`
matches against, `posterUrl` selects photo versus plain-text delivery. -/
structure Item where
  id : Option Nat
  title : List Char
  posterUrl : Option (List Char)
deriving DecidableEq

/-- Outcome of one HTTP GET against a catalog endpoint, at the boundary of the
HTTP client library: either a parsed JSON array of records (a 2xx response with
a well-formed payload), or one of the failure modes in which the client raises
`requests.RequestException` — connection failure, timeout, an error status
surfaced by `raise_for_status`, or an unparseable JSON body. -/
inductive HttpOutcome where
  | ok (items : List Item)
  | netFail
  | timedOut
  | badStatus (code : Nat)
  | badJson
deriving DecidableEq

/-- The fixed timeout passed to the HTTP GET in `fetch_content`
(`requests.get(api_url, timeout=30)`). -/
def requestTimeout : Nat := 30

/-- `fetch_content` (telegram_bot.py:66-74): return the parsed payload of the
catalog endpoint; on any `requests.RequestException` log and return `[]`. -/
def fetch_content : HttpOutcome → List Item
  | .ok items => items
  | .netFail => []
  | .timedOut => []
  | .badStatus _ => []
  | .badJson => []

/-- The module-level content cache: the globals `shows_cache` and
`movies_cache` (telegram_bot.py:45-46). -/
structure Cache where
  shows_cache : List Item
  movies_cache : List Item
deriving DecidableEq

/-- `refresh_cache` (telegram_bot.py:77-82): reassign both globals to fresh
fetch results.  The previous cache value is a parameter only to show the
result never depends on it. -/
def refresh_cache (so mo : HttpOutcome) (_old : Cache) : Cache :=
  { shows_cache := fetch_content so, movies_cache := fetch_content mo }

/-- The value of `text[:n].rsplit(' ', 1)[0]`: everything strictly before the
last space character, or the whole list when it contains no space. -/
def beforeLastSpace : List Char → List Char
  | [] => []
  | c :: rest =>
    if ' ' ∈ rest then c :: beforeLastSpace rest
    else if c = ' ' then [] else c :: rest

/-- `truncate_text` (telegram_bot.py:85-89).  The source gives `max_length` a
default of 200; every caller in the repository uses that default. -/
def truncate_text (text : List Char) (max_length : Nat) : List Char :=
  if text.length ≤ max_length then text
  else beforeLastSpace (text.take (max_length - 3)) ++ [ '.', '.', '.' ]

/-- The part of a truncated text that precedes the three-character ellipsis
marker appended by `truncate_text`. -/
def keptPart (text : List Char) (max_length : Nat) : List Char :=
  (((truncate_text text max_length).dropLast).dropLast).dropLast

/-- Stated from the claim's words, for comparison with the code: the
truncation cut point falls on a whitespace boundary of the original text —
the kept part is a prefix of the text and the first character cut away is a
space (or nothing at all was kept). -/
def cut_on_space_boundary (text : List Char) (max_length : Nat) : Prop :=
  (keptPart text max_length).isPrefixOf text = true ∧
    (keptPart text max_length = [] ∨ text[(keptPart text max_length).length]? = some ' ')

/-- The two content kinds, each with its own ledger entry and its own scan
phase in the auto-post pipeline. -/
inductive Kind where
  | shows
  | movies
deriving DecidableEq

/-- The persisted posted-content document: a JSON object that normally maps
"shows" and "movies" to arrays of content IDs, but — being free-form JSON —
may lack either key (`none`). -/
structure Ledger where
  shows : Option (List (Option Nat))
  movies : Option (List (Option Nat))
deriving DecidableEq

/-- `posted.get(kindKey, ...)` / `posted[kindKey]`: look the kind's entry up
in the document. -/
def Ledger.get : Ledger → Kind → Option (List (Option Nat))
  | l, .shows => l.shows
  | l, .movies => l.movies

/-- Store a list under a kind's key (the effect of mutating
`posted[kindKey]`). -/
def Ledger.set : Ledger → Kind → List (Option Nat) → Ledger
  | l, .shows, v => { l with shows := some v }
  | l, .movies, v => { l with movies := some v }

/-- `load_posted_content` (telegram_bot.py:49-57): the parsed file when it
exists and parses, else the default `{"shows": [], "movies": []}`.  `none`
models both an absent and an unreadable/corrupt file. -/
def load_posted_content (file : Option Ledger) : Ledger :=
  match file with
  | some l => l
  | none => { shows := some [], movies := some [] }

/-- `save_posted_content` (telegram_bot.py:60-63): overwrite the persisted
document with `data`. -/
def save_posted_content (data : Ledger) (_file : Option Ledger) : Option Ledger :=
  some data

/-- `max_posts_per_run` (telegram_bot.py:224): cap on posts per pipeline run. -/
def max_posts_per_run : Nat := 5

/-- State threaded through one auto-post run: the in-memory `posted` dict, the
persisted file, the per-run `posted_count`, and — recording the externally
visible effect — the ordered list of (kind, id) pairs successfully delivered
to the channel. -/
structure RunState where
  posted : Ledger
  file : Option Ledger
  count : Nat
  sent : List (Kind × Option Nat)
deriving DecidableEq

/-- One scan phase of `auto_post_job` (telegram_bot.py:227-260 for shows,
263-296 for movies), parameterized by the kind.  Per item, in source order:
break once `posted_count >= max_posts_per_run`; skip when the item's id is in
`posted.get(kindKey, [])`; otherwise attempt the send (`sendOk` is the
oracle for the Telegram call raising or not).  Inside the `try`: a successful
send is followed by `posted[kindKey].append(id)` — which raises `KeyError`
into the same per-item handler when the key is absent, leaving every piece of
state unchanged although the message went out — then `save_posted_content`
and `posted_count += 1`. -/
def postItems (kind : Kind) (sendOk : Item → Bool) : List Item → RunState → RunState
  | [], st => st
  | item :: rest, st =>
    if st.count ≥ max_posts_per_run then st
    else if item.id ∈ (st.posted.get kind).getD [] then
      postItems kind sendOk rest st
    else if sendOk item then
      match st.posted.get kind with
      | none =>
        postItems kind sendOk rest { st with sent := st.sent ++ [(kind, item.id)] }
      | some l =>
        let posted' := st.posted.set kind (l ++ [item.id])
        postItems kind sendOk rest
          { posted := posted', file := save_posted_content posted' st.file,
            count := st.count + 1, sent := st.sent ++ [(kind, item.id)] }
    else postItems kind sendOk rest st

/-- The run state at the top of `auto_post_job`, after
`posted = load_posted_content()` and `posted_count = 0`: nothing sent yet and
the persisted file untouched. -/
def initState (file : Option Ledger) : RunState :=
  { posted := load_posted_content file, file := file, count := 0, sent := [] }

/-- `auto_post_job` (telegram_bot.py:215-301): after the unconditional cache
refresh, load the ledger once, then scan the cached shows and then the cached
movies.  `shows` and `movies` are the refreshed cache contents; `okS`/`okM`
give each Telegram send's outcome. -/
def auto_post_job (shows movies : List Item) (okS okM : Item → Bool)
    (file : Option Ledger) : RunState :=
  let st1 := postItems .shows okS shows (initState file)
  postItems .movies okM movies st1

/-- Number of items of a scan list whose id is absent from a ledger list —
the candidates the pipeline would try to deliver. -/
def countNew (l : List (Option Nat)) (items : List Item) : Nat :=
  (items.filter (fun it => ! decide (it.id ∈ l))).length

/-- Abstracted reply sent back to the requesting user by a command handler. -/
inductive Reply where
  | welcome
  | helpText
  | usageError
  | noResultsFound
  | searchResults (shows movies : List Item)
  | latestDigest (shows movies : List Item)
  | contentDigest (kind : Kind) (items : List Item)
  | noContent
  | randomPick (item : Item)
deriving DecidableEq

/-- Observable effect of one command handler invocation: the cache it leaves
behind, how many catalog fetches and ledger reads/writes it performed, and the
reply it sent. -/
structure HandlerEffect where
  cache : Cache
  fetches : Nat
  ledgerReads : Nat
  ledgerWrites : Nat
  reply : Reply
deriving DecidableEq

/-- `start_command` (telegram_bot.py:306-330): reply with the welcome text;
no cache, catalog or ledger access. -/
def start_command (c : Cache) : HandlerEffect :=
  { cache := c, fetches := 0, ledgerReads := 0, ledgerWrites := 0, reply := .welcome }

/-- `help_command` (telegram_bot.py:333-359): reply with the help text; no
cache, catalog or ledger access. -/
def help_command (c : Cache) : HandlerEffect :=
  { cache := c, fetches := 0, ledgerReads := 0, ledgerWrites := 0, reply := .helpText }

/-- `latest_command` (telegram_bot.py:362-390): refresh the cache if either
list is empty (two fetches), then reply with the first 5 of each kind. -/
def latest_command (so mo : HttpOutcome) (c : Cache) : HandlerEffect :=
  let (c', f) :=
    if c.shows_cache = [] ∨ c.movies_cache = [] then (refresh_cache so mo c, 2) else (c, 0)
  { cache := c', fetches := f, ledgerReads := 0, ledgerWrites := 0,
    reply := .latestDigest (c'.shows_cache.take 5) (c'.movies_cache.take 5) }

/-- `movies_command` (telegram_bot.py:393-398): refresh if the movie list is
empty, then reply with the first 10 movies. -/
def movies_command (so mo : HttpOutcome) (c : Cache) : HandlerEffect :=
  let (c', f) := if c.movies_cache = [] then (refresh_cache so mo c, 2) else (c, 0)
  { cache := c', fetches := f, ledgerReads := 0, ledgerWrites := 0,
    reply := .contentDigest .movies (c'.movies_cache.take 10) }

/-- `shows_command` (telegram_bot.py:401-406): refresh if the show list is
empty, then reply with the first 10 shows. -/
def shows_command (so mo : HttpOutcome) (c : Cache) : HandlerEffect :=
  let (c', f) := if c.shows_cache = [] then (refresh_cache so mo c, 2) else (c, 0)
  { cache := c', fetches := f, ledgerReads := 0, ledgerWrites := 0,
    reply := .contentDigest .shows (c'.shows_cache.take 10) }

/-- Lower-case a string the way `str.lower()` does for the characters the bot
compares. -/
def lowerStr (s : List Char) : List Char :=
  s.map Char.toLower

/-- `search_command` (telegram_bot.py:409-448): with no argument, reply with
the usage error and return at once; otherwise lower-case the joined query,
apply the refresh-if-empty policy, filter both lists by case-insensitive
substring match on the title, and reply with up to 5 results per kind. -/
def search_command (args : List (List Char)) (so mo : HttpOutcome) (c : Cache) :
    HandlerEffect :=
  if args = [] then
    { cache := c, fetches := 0, ledgerReads := 0, ledgerWrites := 0, reply := .usageError }
  else
    let query := lowerStr (List.intercalate [ ' ' ] args)
    let (c', f) :=
      if c.shows_cache = [] ∨ c.movies_cache = [] then (refresh_cache so mo c, 2) else (c, 0)
    let matching_shows := c'.shows_cache.filter (fun s => decide (query <:+: lowerStr s.title))
    let matching_movies := c'.movies_cache.filter (fun m => decide (query <:+: lowerStr m.title))
    if matching_shows = [] ∧ matching_movies = [] then
      { cache := c', fetches := f, ledgerReads := 0, ledgerWrites := 0,
        reply := .noResultsFound }
    else
      { cache := c', fetches := f, ledgerReads := 0, ledgerWrites := 0,
        reply := .searchResults (matching_shows.take 5) (matching_movies.take 5) }

/-- `random_command` (telegram_bot.py:451-477): refresh-if-empty, then pick
uniformly from the concatenation of both lists (`pick` resolves the random
draw); reply "no content" when the concatenation is empty. -/
def random_command (so mo : HttpOutcome) (pick : Nat) (c : Cache) : HandlerEffect :=
  let (c', f) :=
    if c.shows_cache = [] ∨ c.movies_cache = [] then (refresh_cache so mo c, 2) else (c, 0)
  let all_content := c'.shows_cache ++ c'.movies_cache
  match all_content[pick % all_content.length]? with
  | none =>
    { cache := c', fetches := f, ledgerReads := 0, ledgerWrites := 0, reply := .noContent }
  | some item =>
    { cache := c', fetches := f, ledgerReads := 0, ledgerWrites := 0,
      reply := .randomPick item }

/-- The fixed plaintext body of the health endpoint,
"StreamVault Bot is running!". -/
def healthBody : List Char :=
  [ 'S', 't', 'r', 'e', 'a', 'm', 'V', 'a', 'u', 'l', 't', ' ',
    'B', 'o', 't', ' ', 'i', 's', ' ', 'r', 'u', 'n', 'n', 'i', 'n', 'g', '!' ]

/-- Modelled from the spec: the repository's health-check HTTP responder is
not under src/ (only the bot and its configuration are).  Per the spec it is a
plain HTTP GET listener that answers every path, regardless of query
parameters, with status 200 and the fixed plaintext body, and serves no
other routes. -/
def healthEndpoint (_path _query : List Char) : Nat × List Char :=
  (200, healthBody)

/-- Whether the HTTP fetch succeeded. -/
def HttpOutcome.isOk : HttpOutcome → Bool
  | .ok _ => true
  | _ => false

/-- A sample catalog record used to instantiate proved theorems at concrete
inputs. -/
def itemA : Item := { id := some 1, title := [ 'a' ], posterUrl := none }

/-- A second sample catalog record. -/
def itemB : Item := { id := some 2, title := [ 'b' ], posterUrl := none }

/-- Six distinct sample records, one more than the per-run posting cap. -/
def sixItems : List Item :=
  [ { id := some 1, title := [], posterUrl := none },
    { id := some 2, title := [], posterUrl := none },
    { id := some 3, title := [], posterUrl := none },
    { id := some 4, title := [], posterUrl := none },
    { id := some 5, title := [], posterUrl := none },
    { id := some 6, title := [], posterUrl := none } ]

instance (t : List Char) (n : Nat) : Decidable (cut_on_space_boundary t n) := by
  unfold cut_on_space_boundary
  exact inferInstance

/-! ## Basic lemmas about the auto-post scan -/

theorem postItems_cons (kind : Kind) (ok : Item → Bool) (item : Item) (rest : List Item)
    (st : RunState) :
    postItems kind ok (item :: rest) st =
      if st.count ≥ max_posts_per_run then st
      else if item.id ∈ (st.posted.get kind).getD [] then postItems kind ok rest st
      else if ok item then
        (match st.posted.get kind with
         | none => postItems kind ok rest { st with sent := st.sent ++ [(kind, item.id)] }
         | some l =>
           postItems kind ok rest
             { posted := st.posted.set kind (l ++ [item.id]),
               file := save_posted_content (st.posted.set kind (l ++ [item.id])) st.file,
               count := st.count + 1, sent := st.sent ++ [(kind, item.id)] })
      else postItems kind ok rest st := rfl

theorem postItems_capstop (kind : Kind) (ok : Item → Bool) (items : List Item)
    (st : RunState) (h : st.count ≥ max_posts_per_run) :
    postItems kind ok items st = st := by
  cases items with
  | nil => rfl
  | cons item rest => rw [postItems_cons, if_pos h]

theorem postItems_sent_grows (kind : Kind) (ok : Item → Bool) (items : List Item)
    (st : RunState) :
    ∃ tl, (postItems kind ok items st).sent = st.sent ++ tl := by
  induction items generalizing st with
  | nil => exact ⟨[], by simp [postItems]⟩
  | cons item rest ih =>
    rw [postItems_cons]
    split
    · exact ⟨[], by simp⟩
    split
    · exact ih st
    split
    · cases hk : st.posted.get kind with
      | none =>
        simp only [hk]
        obtain ⟨tl, htl⟩ := ih { st with sent := st.sent ++ [(kind, item.id)] }
        exact ⟨(kind, item.id) :: tl, by simp [htl]⟩
      | some l =>
        simp only [hk]
        obtain ⟨tl, htl⟩ :=
          ih { posted := st.posted.set kind (l ++ [item.id]),
               file := save_posted_content (st.posted.set kind (l ++ [item.id])) st.file,
               count := st.count + 1,
               sent := st.sent ++ [(kind, item.id)] }
        exact ⟨(kind, item.id) :: tl, by simp [htl]⟩
    · exact ih st

theorem Ledger.get_set_self (l : Ledger) (k : Kind) (v : List (Option Nat)) :
    (l.set k v).get k = some v := by
  cases k <;> rfl

theorem Ledger.get_set_other (l : Ledger) (k k' : Kind) (v : List (Option Nat))
    (h : k' ≠ k) : (l.set k v).get k' = l.get k' := by
  cases k <;> cases k' <;> first | rfl | exact absurd rfl h

theorem postItems_get_some (kind k' : Kind) (ok : Item → Bool) (items : List Item)
    (st : RunState) (l : List (Option Nat)) (h : st.posted.get k' = some l) :
    ∃ tl, (postItems kind ok items st).posted.get k' = some (l ++ tl) := by
  induction items generalizing st l with
  | nil => exact ⟨[], by simpa [postItems] using h⟩
  | cons item rest ih =>
    rw [postItems_cons]
    split
    · exact ⟨[], by simpa using h⟩
    split
    · exact ih st l h
    split
    · cases hk : st.posted.get kind with
      | none => exact ih _ l h
      | some lk =>
        simp only [hk]
        by_cases hkk : k' = kind
        · subst hkk
          rw [h] at hk
          injection hk with hlk
          subst hlk
          obtain ⟨tl, htl⟩ :=
            ih { posted := st.posted.set k' (l ++ [item.id]),
                 file := save_posted_content (st.posted.set k' (l ++ [item.id])) st.file,
                 count := st.count + 1,
                 sent := st.sent ++ [(k', item.id)] }
              (l ++ [item.id]) (Ledger.get_set_self st.posted k' (l ++ [item.id]))
          exact ⟨[item.id] ++ tl, by rw [htl, List.append_assoc]⟩
        · exact ih _ l (by simpa [Ledger.get_set_other st.posted kind k' _ hkk] using h)
    · exact ih st l h

theorem postItems_get_isSome (kind k' : Kind) (ok : Item → Bool) (items : List Item)
    (st : RunState) (h : (st.posted.get k').isSome) :
    ((postItems kind ok items st).posted.get k').isSome := by
  obtain ⟨l, hl⟩ := Option.isSome_iff_exists.mp h
  obtain ⟨tl, htl⟩ := postItems_get_some kind k' ok items st l hl
  simp [htl]

theorem postItems_mem_getD (kind k' : Kind) (ok : Item → Bool) (items : List Item)
    (st : RunState) (i : Option Nat) (h : i ∈ (st.posted.get k').getD []) :
    i ∈ ((postItems kind ok items st).posted.get k').getD [] := by
  cases hl : st.posted.get k' with
  | none => simp [hl] at h
  | some l =>
    obtain ⟨tl, htl⟩ := postItems_get_some kind k' ok items st l hl
    rw [htl]
    rw [hl] at h
    simp at h ⊢
    exact Or.inl h

theorem postItems_other_kind (kind k' : Kind) (ok : Item → Bool) (items : List Item)
    (st : RunState) (h : k' ≠ kind) :
    (postItems kind ok items st).posted.get k' = st.posted.get k' := by
  induction items generalizing st with
  | nil => rfl
  | cons item rest ih =>
    rw [postItems_cons]
    split
    · rfl
    split
    · exact ih st
    split
    · cases hk : st.posted.get kind with
      | none => exact ih _
      | some lk =>
        simp only [hk]
        rw [ih]
        exact Ledger.get_set_other st.posted kind k' _ h
    · exact ih st

theorem postItems_sent_kind (kind : Kind) (ok : Item → Bool) (items : List Item)
    (st : RunState) (p : Kind × Option Nat) (hp : p ∈ (postItems kind ok items st).sent) :
    p ∈ st.sent ∨ p.1 = kind := by
  induction items generalizing st with
  | nil => exact Or.inl hp
  | cons item rest ih =>
    rw [postItems_cons] at hp
    split at hp
    · exact Or.inl hp
    split at hp
    · exact ih st hp
    split at hp
    · revert hp
      cases hk : st.posted.get kind with
      | none =>
        intro hp
        rcases ih _ hp with hmem | hkind
        · rcases List.mem_append.mp hmem with h1 | h2
          · exact Or.inl h1
          · simp at h2
            subst h2
            exact Or.inr rfl
        · exact Or.inr hkind
      | some l =>
        intro hp
        rcases ih _ hp with hmem | hkind
        · rcases List.mem_append.mp hmem with h1 | h2
          · exact Or.inl h1
          · simp at h2
            subst h2
            exact Or.inr rfl
        · exact Or.inr hkind
    · exact ih st hp

theorem postItems_no_reselect (kind : Kind) (ok : Item → Bool) (items : List Item)
    (st : RunState) (i : Option Nat) (hi : i ∈ (st.posted.get kind).getD [])
    (hp : (kind, i) ∈ (postItems kind ok items st).sent) :
    (kind, i) ∈ st.sent := by
  induction items generalizing st with
  | nil => exact hp
  | cons item rest ih =>
    rw [postItems_cons] at hp
    split at hp
    · exact hp
    split at hp
    · exact ih st hi hp
    split at hp
    · revert hp
      rename_i hguard _
      cases hk : st.posted.get kind with
      | none =>
        rw [hk] at hi
        simp at hi
      | some l =>
        intro hp
        rw [hk] at hi hguard
        simp at hi
        have hi' : i ∈ ((st.posted.set kind (l ++ [item.id])).get kind).getD [] := by
          rw [Ledger.get_set_self]
          simp
          exact Or.inl hi
        have := ih _ hi' hp
        rcases List.mem_append.mp this with h1 | h2
        · exact h1
        · simp at h2
          rw [h2] at hi
          exact absurd hi (by simpa using hguard)
    · exact ih st hi hp

theorem postItems_file_inv (kind : Kind) (ok : Item → Bool) (items : List Item)
    (st : RunState) (hs : (st.posted.get kind).isSome)
    (h : st.file = save_posted_content st.posted st.file ∨ st.sent = []) :
    (postItems kind ok items st).file =
        save_posted_content (postItems kind ok items st).posted
          (postItems kind ok items st).file ∨
      (postItems kind ok items st).sent = [] := by
  induction items generalizing st with
  | nil => exact h
  | cons item rest ih =>
    rw [postItems_cons]
    split
    · exact h
    split
    · exact ih st hs h
    split
    · cases hk : st.posted.get kind with
      | none => simp [hk] at hs
      | some l =>
        simp only [hk]
        refine ih _ ?_ (Or.inl ?_)
        · rw [Ledger.get_set_self]
          rfl
        · rfl
    · exact ih st hs h

theorem postItems_sent_recorded (kind : Kind) (ok : Item → Bool) (items : List Item)
    (st : RunState) (hs : (st.posted.get kind).isSome)
    (h : ∀ p ∈ st.sent, p.2 ∈ (st.posted.get p.1).getD []) :
    ∀ p ∈ (postItems kind ok items st).sent,
      p.2 ∈ ((postItems kind ok items st).posted.get p.1).getD [] := by
  induction items generalizing st with
  | nil => exact h
  | cons item rest ih =>
    rw [postItems_cons]
    split
    · exact h
    split
    · exact ih st hs h
    split
    · cases hk : st.posted.get kind with
      | none => simp [hk] at hs
      | some l =>
        simp only [hk]
        refine ih _ (by rw [Ledger.get_set_self]; rfl) ?_
        intro p hp
        rcases List.mem_append.mp hp with h1 | h2
        · have := h p h1
          by_cases hpk : p.1 = kind
          · rw [hpk] at this ⊢
            rw [Ledger.get_set_self]
            rw [hk] at this
            simp at this ⊢
            exact Or.inl this
          · rw [Ledger.get_set_other st.posted kind p.1 _ hpk]
            exact this
        · simp at h2
          rw [h2]
          rw [Ledger.get_set_self]
          simp
    · exact ih st hs h

theorem postItems_skip_all (kind : Kind) (ok : Item → Bool) (items : List Item)
    (st : RunState) (h : ∀ it ∈ items, it.id ∈ (st.posted.get kind).getD []) :
    postItems kind ok items st = st := by
  induction items with
  | nil => rfl
  | cons item rest ih =>
    rw [postItems_cons]
    split
    · rfl
    rw [if_pos (h item (List.mem_cons_self item rest))]
    exact ih (fun it hit => h it (List.mem_cons_of_mem item hit))

theorem countNew_cons (l : List (Option Nat)) (it : Item) (rest : List Item) :
    countNew l (it :: rest) =
      if it.id ∈ l then countNew l rest else countNew l rest + 1 := by
  by_cases h : it.id ∈ l <;> simp [countNew, List.filter_cons, h]

theorem countNew_superset_le (l l' : List (Option Nat)) (items : List Item)
    (h : ∀ x ∈ l, x ∈ l') : countNew l' items ≤ countNew l items := by
  induction items with
  | nil => exact Nat.le_refl 0
  | cons item rest ih =>
    rw [countNew_cons, countNew_cons]
    by_cases hl : item.id ∈ l
    · rw [if_pos hl, if_pos (h _ hl)]
      exact ih
    · rw [if_neg hl]
      by_cases hl' : item.id ∈ l'
      · rw [if_pos hl']
        omega
      · rw [if_neg hl']
        omega

theorem postItems_count_le (kind : Kind) (ok : Item → Bool) (items : List Item)
    (st : RunState) (h : st.count ≤ max_posts_per_run) :
    (postItems kind ok items st).count ≤ max_posts_per_run := by
  induction items generalizing st with
  | nil => exact h
  | cons item rest ih =>
    rw [postItems_cons]
    split
    · exact h
    split
    · exact ih st h
    split
    · cases hk : st.posted.get kind with
      | none => exact ih _ h
      | some l =>
        simp only [hk]
        refine ih _ ?_
        rename_i hc _ _
        simp only [max_posts_per_run] at hc ⊢
        omega
    · exact ih st h

theorem postItems_count_bound (kind : Kind) (ok : Item → Bool) (items : List Item)
    (st : RunState) (hs : (st.posted.get kind).isSome) :
    (postItems kind ok items st).count ≤
      st.count + countNew ((st.posted.get kind).getD []) items := by
  induction items generalizing st with
  | nil => simp [postItems, countNew]
  | cons item rest ih =>
    rw [postItems_cons]
    split
    · exact Nat.le_add_right st.count _
    split
    · rename_i hmem
      have := ih st hs
      rw [countNew_cons, if_pos (by simpa using hmem)]
      exact this
    split
    · cases hk : st.posted.get kind with
      | none => simp [hk] at hs
      | some l =>
        simp only [hk]
        rename_i hmem _
        rw [hk] at hmem
        simp at hmem
        have hbound := ih
          { posted := st.posted.set kind (l ++ [item.id]),
            file := save_posted_content (st.posted.set kind (l ++ [item.id])) st.file,
            count := st.count + 1,
            sent := st.sent ++ [(kind, item.id)] }
          (by rw [Ledger.get_set_self]; rfl)
        rw [Ledger.get_set_self] at hbound
        simp only [Option.getD_some] at hbound
        have hmono : countNew (l ++ [item.id]) rest ≤ countNew l rest :=
          countNew_superset_le l (l ++ [item.id]) rest
            (fun x hx => List.mem_append.mpr (Or.inl hx))
        simp only [Option.getD_some]
        rw [countNew_cons, if_neg hmem]
        omega
    · rename_i hok
      have := ih st hs
      rw [countNew_cons]
      split <;> omega

theorem postItems_sent_count (kind : Kind) (ok : Item → Bool) (items : List Item)
    (st : RunState) (hs : (st.posted.get kind).isSome) :
    (postItems kind ok items st).sent.length + st.count =
      st.sent.length + (postItems kind ok items st).count := by
  induction items generalizing st with
  | nil => simp [postItems]
  | cons item rest ih =>
    rw [postItems_cons]
    split
    · rfl
    split
    · exact ih st hs
    split
    · cases hk : st.posted.get kind with
      | none => simp [hk] at hs
      | some l =>
        simp only [hk]
        have := ih
          { posted := st.posted.set kind (l ++ [item.id]),
            file := save_posted_content (st.posted.set kind (l ++ [item.id])) st.file,
            count := st.count + 1,
            sent := st.sent ++ [(kind, item.id)] }
          (by rw [Ledger.get_set_self]; rfl)
        simp only [List.length_append, List.length_cons, List.length_nil] at this
        omega
    · exact ih st hs

theorem postItems_ledger_growth (kind : Kind) (ok : Item → Bool) (items : List Item)
    (st : RunState) (l : List (Option Nat)) (h : st.posted.get kind = some l) :
    ∃ tl, (postItems kind ok items st).posted.get kind = some (l ++ tl) ∧
      ∀ i ∈ tl, (kind, i) ∈ (postItems kind ok items st).sent := by
  induction items generalizing st l with
  | nil => exact ⟨[], by simpa [postItems] using h, by simp⟩
  | cons item rest ih =>
    rw [postItems_cons]
    split
    · exact ⟨[], by simpa using h, by simp⟩
    split
    · exact ih st l h
    split
    · cases hk : st.posted.get kind with
      | none =>
        rw [h] at hk
        cases hk
      | some l' =>
        simp only [hk]
        rw [h] at hk
        injection hk with hll
        subst hll
        obtain ⟨tl, htl, hmem⟩ := ih
          { posted := st.posted.set kind (l ++ [item.id]),
            file := save_posted_content (st.posted.set kind (l ++ [item.id])) st.file,
            count := st.count + 1,
            sent := st.sent ++ [(kind, item.id)] }
          (l ++ [item.id]) (Ledger.get_set_self st.posted kind (l ++ [item.id]))
        refine ⟨[item.id] ++ tl, by rw [htl, List.append_assoc], ?_⟩
        intro i hi
        rcases List.mem_append.mp hi with h1 | h2
        · simp at h1
          subst h1
          obtain ⟨tl2, htl2⟩ := postItems_sent_grows kind ok rest
            { posted := st.posted.set kind (l ++ [item.id]),
              file := save_posted_content (st.posted.set kind (l ++ [item.id])) st.file,
              count := st.count + 1,
              sent := st.sent ++ [(kind, item.id)] }
          rw [htl2]
          simp
        · exact hmem i h2
    · exact ih st l h

theorem postItems_sent_fixed_eq (kind : Kind) (ok : Item → Bool) (items : List Item)
    (st : RunState) (h : (postItems kind ok items st).sent = st.sent) :
    postItems kind ok items st = st := by
  induction items generalizing st with
  | nil => rfl
  | cons item rest ih =>
    rw [postItems_cons] at h ⊢
    by_cases hc : st.count ≥ max_posts_per_run
    · rw [if_pos hc]
    · rw [if_neg hc] at h ⊢
      by_cases hmem : item.id ∈ (st.posted.get kind).getD []
      · rw [if_pos hmem] at h ⊢
        exact ih st h
      · rw [if_neg hmem] at h ⊢
        by_cases hok : ok item = true
        · rw [if_pos hok] at h ⊢
          exfalso
          revert h
          cases hk : st.posted.get kind with
          | none =>
            intro h
            obtain ⟨tl, htl⟩ := postItems_sent_grows kind ok rest
              { st with sent := st.sent ++ [(kind, item.id)] }
            rw [htl] at h
            have := congrArg List.length h
            simp at this
          | some l =>
            intro h
            obtain ⟨tl, htl⟩ := postItems_sent_grows kind ok rest
              { posted := st.posted.set kind (l ++ [item.id]),
                file := save_posted_content (st.posted.set kind (l ++ [item.id])) st.file,
                count := st.count + 1,
                sent := st.sent ++ [(kind, item.id)] }
            rw [htl] at h
            have := congrArg List.length h
            simp at this
        · rw [if_neg hok] at h ⊢
          exact ih st h

theorem postItems_missing_key (kind : Kind) (ok : Item → Bool) (items : List Item)
    (st : RunState) (hk : st.posted.get kind = none)
    (hc : st.count < max_posts_per_run) :
    postItems kind ok items st =
      { st with sent := st.sent ++ (items.filter ok).map (fun it => (kind, it.id)) } := by
  induction items generalizing st with
  | nil => simp [postItems]
  | cons item rest ih =>
    rw [postItems_cons, if_neg (Nat.not_le.mpr hc), if_neg (by rw [hk]; simp)]
    by_cases hok : ok item
    · rw [if_pos hok]
      simp only [hk]
      rw [ih { st with sent := st.sent ++ [(kind, item.id)] } hk hc]
      simp [List.filter_cons, hok, List.append_assoc]
    · rw [if_neg hok]
      rw [ih st hk hc]
      simp [List.filter_cons, hok]

theorem countNew_eq_zero (l : List (Option Nat)) (items : List Item)
    (h : countNew l items = 0) : ∀ it ∈ items, it.id ∈ l := by
  intro it hit
  unfold countNew at h
  rw [List.length_eq_zero] at h
  have := List.filter_eq_nil_iff.mp h it hit
  simpa using this

theorem postItems_complete (kind : Kind) (ok : Item → Bool) (items : List Item)
    (st : RunState) (hs : (st.posted.get kind).isSome)
    (hok : ∀ it ∈ items, ok it = true)
    (hcap : st.count + countNew ((st.posted.get kind).getD []) items ≤ max_posts_per_run) :
    ∀ it ∈ items, it.id ∈ ((postItems kind ok items st).posted.get kind).getD [] := by
  induction items generalizing st with
  | nil => simp
  | cons item rest ih =>
    intro it hit
    rw [postItems_cons]
    cases hk : st.posted.get kind with
    | none => simp [hk] at hs
    | some l =>
      rw [hk] at hcap
      simp only [Option.getD_some] at hcap
      by_cases hc : st.count ≥ max_posts_per_run
      · rw [if_pos hc]
        have hcn : countNew l (item :: rest) = 0 := by omega
        have hall := countNew_eq_zero l (item :: rest) hcn
        rw [hk]
        simp only [Option.getD_some]
        exact hall it hit
      · rw [if_neg hc]
        simp only [Option.getD_some]
        by_cases hmem : item.id ∈ l
        · rw [if_pos hmem]
          have hcap' : st.count + countNew ((st.posted.get kind).getD []) rest ≤
              max_posts_per_run := by
            rw [hk]
            simp only [Option.getD_some]
            rw [countNew_cons, if_pos hmem] at hcap
            exact hcap
          rcases List.mem_cons.mp hit with rfl | hit'
          · exact postItems_mem_getD kind kind ok rest st it.id
              (by rw [hk]; simpa using hmem)
          · exact ih st hs (fun x hx => hok x (List.mem_cons_of_mem item hx)) hcap' it hit'
        · rw [if_neg hmem, if_pos (hok item (List.mem_cons_self item rest))]
          have hs' : ((RunState.mk (st.posted.set kind (l ++ [item.id]))
              (save_posted_content (st.posted.set kind (l ++ [item.id])) st.file)
              (st.count + 1) (st.sent ++ [(kind, item.id)])).posted.get kind).isSome := by
            rw [Ledger.get_set_self]
            rfl
          have hcap' : (st.count + 1) +
              countNew (((st.posted.set kind (l ++ [item.id])).get kind).getD []) rest ≤
              max_posts_per_run := by
            rw [Ledger.get_set_self]
            simp only [Option.getD_some]
            have hmono : countNew (l ++ [item.id]) rest ≤ countNew l rest :=
              countNew_superset_le l (l ++ [item.id]) rest
                (fun x hx => List.mem_append.mpr (Or.inl hx))
            rw [countNew_cons, if_neg hmem] at hcap
            omega
          rcases List.mem_cons.mp hit with rfl | hit'
          · refine postItems_mem_getD kind kind ok rest _ it.id ?_
            rw [Ledger.get_set_self]
            simp
          · exact ih _ hs' (fun x hx => hok x (List.mem_cons_of_mem item hx)) hcap' it hit'

theorem postItems_send_failure (kind : Kind) (ok : Item → Bool) (item : Item)
    (rest : List Item) (st : RunState) (hok : ok item = false)
    (hc : st.count < max_posts_per_run) :
    postItems kind ok (item :: rest) st = postItems kind ok rest st := by
  rw [postItems_cons, if_neg (Nat.not_le.mpr hc)]
  by_cases hmem : item.id ∈ (st.posted.get kind).getD []
  · rw [if_pos hmem]
  · rw [if_neg hmem, if_neg (by simp [hok])]

/-! ## Lemmas about truncation -/

theorem beforeLastSpace_cons (c : Char) (rest : List Char) :
    beforeLastSpace (c :: rest) =
      if ' ' ∈ rest then c :: beforeLastSpace rest
      else if c = ' ' then [] else c :: rest := rfl

theorem beforeLastSpace_length_le (l : List Char) :
    (beforeLastSpace l).length ≤ l.length := by
  induction l with
  | nil => exact Nat.le_refl 0
  | cons c rest ih =>
    rw [beforeLastSpace_cons]
    split
    · simpa using ih
    split
    · simp
    · exact Nat.le_refl _

theorem beforeLastSpace_no_space (l : List Char) (h : ' ' ∉ l) :
    beforeLastSpace l = l := by
  cases l with
  | nil => rfl
  | cons c rest =>
    have hr : ' ' ∉ rest := fun hx => h (List.mem_cons_of_mem c hx)
    have hc : ¬ c = ' ' := fun hx => h (by rw [hx]; exact List.mem_cons_self ' ' rest)
    rw [beforeLastSpace_cons, if_neg hr, if_neg hc]

theorem beforeLastSpace_split (l : List Char) (h : ' ' ∈ l) :
    ∃ s, l = beforeLastSpace l ++ ' ' :: s ∧ ' ' ∉ s := by
  induction l with
  | nil => cases h
  | cons c rest ih =>
    by_cases hr : ' ' ∈ rest
    · obtain ⟨s, hs, hns⟩ := ih hr
      rw [beforeLastSpace_cons, if_pos hr]
      exact ⟨s, by rw [List.cons_append, ← hs], hns⟩
    · have hc : c = ' ' := by
        rcases List.mem_cons.mp h with h1 | h2
        · exact h1.symm
        · exact absurd h2 hr
      rw [beforeLastSpace_cons, if_neg hr, if_pos hc]
      exact ⟨rest, by rw [hc]; rfl, hr⟩

theorem dropLast_three (k : List Char) (a b c : Char) :
    (((k ++ [a, b, c]).dropLast).dropLast).dropLast = k := by
  simp

theorem keptPart_eq (t : List Char) (h : 200 < t.length) :
    keptPart t 200 = beforeLastSpace (t.take 197) := by
  unfold keptPart truncate_text
  rw [if_neg (Nat.not_le.mpr h)]
  exact dropLast_three _ '.' '.' '.'

theorem auto_post_job_eq (shows movies : List Item) (okS okM : Item → Bool)
    (file : Option Ledger) :
    auto_post_job shows movies okS okM file =
      postItems .movies okM movies (postItems .shows okS shows (initState file)) := rfl

/-! ## Claim theorems -/

/-- C4: `fetch_content` never raises to its caller: it is a total function of
the request outcome, returning the parsed payload on success and the empty
sequence on network error, timeout, error status, or malformed payload, and
the request timeout is fixed at 30 time-units. -/
theorem claim_C4_fetch_total :
    (∀ items, fetch_content (.ok items) = items) ∧
    fetch_content .netFail = [] ∧
    fetch_content .timedOut = [] ∧
    (∀ code, fetch_content (.badStatus code) = []) ∧
    fetch_content .badJson = [] ∧
    requestTimeout = 30 :=
  ⟨fun _ => rfl, rfl, rfl, fun _ => rfl, rfl, rfl⟩

/-- C6: `refresh_cache` replaces both in-memory lists wholesale: the result is
exactly the two fetch results, independent of the previous cache value, and a
failed fetch for a kind yields the empty list for that kind, never the
retained stale list. -/
theorem claim_C6_refresh_wholesale (so mo : HttpOutcome) (old old' : Cache) :
    refresh_cache so mo old =
      { shows_cache := fetch_content so, movies_cache := fetch_content mo } ∧
    refresh_cache so mo old = refresh_cache so mo old' ∧
    (so.isOk = false → (refresh_cache so mo old).shows_cache = []) ∧
    (mo.isOk = false → (refresh_cache so mo old).movies_cache = []) := by
  refine ⟨rfl, rfl, ?_, ?_⟩
  · intro h
    cases so <;> simp_all [refresh_cache, fetch_content, HttpOutcome.isOk]
  · intro h
    cases mo <;> simp_all [refresh_cache, fetch_content, HttpOutcome.isOk]

theorem claim_C6_refresh_wholesale_witness :
    (HttpOutcome.netFail.isOk = false ∧ HttpOutcome.timedOut.isOk = false) ∧
      (Cache.shows_cache
          (refresh_cache .netFail .timedOut
            { shows_cache := [itemA], movies_cache := [itemB] }) = [] ∧
        Cache.movies_cache
          (refresh_cache .netFail .timedOut
            { shows_cache := [itemA], movies_cache := [itemB] }) = []) :=
  ⟨⟨rfl, rfl⟩,
    (claim_C6_refresh_wholesale .netFail .timedOut
        { shows_cache := [itemA], movies_cache := [itemB] }
        { shows_cache := [], movies_cache := [] }).2.2.1 rfl,
    (claim_C6_refresh_wholesale .netFail .timedOut
        { shows_cache := [itemA], movies_cache := [itemB] }
        { shows_cache := [], movies_cache := [] }).2.2.2 rfl⟩

/-- C8: `/search` with no argument replies with the usage-error message and
returns at once, leaving the cache untouched and performing zero catalog
fetches and zero ledger accesses. -/
theorem claim_C8_search_no_args (so mo : HttpOutcome) (c : Cache) :
    search_command [] so mo c =
      { cache := c, fetches := 0, ledgerReads := 0, ledgerWrites := 0,
        reply := .usageError } := rfl

/-- C9: the health endpoint answers an HTTP GET on any path, regardless of
query parameters, with status 200 and the fixed plaintext body
"StreamVault Bot is running!", and there is no other route: every request
goes through this one responder. -/
theorem claim_C9_health_fixed (path query : List Char) :
    healthEndpoint path query = (200, healthBody) := rfl

/-- C5: when the send for an item fails, the pipeline leaves the whole run
state — ledger, persisted file, counter — unmodified for that item and
continues with the remaining candidate items: the scan of `item :: rest` is
exactly the scan of `rest` from the unchanged state, so a single failure
neither aborts the run nor marks the item posted. -/
theorem claim_C5_send_failure_skips (kind : Kind) (ok : Item → Bool) (item : Item)
    (rest : List Item) (st : RunState) (hok : ok item = false)
    (hc : st.count < max_posts_per_run) :
    postItems kind ok (item :: rest) st = postItems kind ok rest st :=
  postItems_send_failure kind ok item rest st hok hc

theorem claim_C5_send_failure_skips_witness :
    ((fun _ => false : Item → Bool) itemA = false ∧
      (initState (some { shows := some [], movies := some [] })).count < max_posts_per_run) ∧
    postItems .shows (fun _ => false) (itemA :: [itemB])
        (initState (some { shows := some [], movies := some [] })) =
      postItems .shows (fun _ => false) [itemB]
        (initState (some { shows := some [], movies := some [] })) :=
  ⟨⟨rfl, by decide⟩,
    claim_C5_send_failure_skips .shows (fun _ => false) itemA [itemB]
      (initState (some { shows := some [], movies := some [] })) rfl (by decide)⟩

set_option maxRecDepth 8000

/-- C3, counterexample to the claim as stated: for a description of 201
non-space characters, `truncate_text` with the 200 limit returns the first
197 characters followed by the ellipsis — the output is in the truncating
branch, yet the cut point does not fall on a whitespace boundary, so the
single 201-character word is split. -/
theorem claim_C3_cex :
    200 < (List.replicate 201 'a').length ∧
    truncate_text (List.replicate 201 'a') 200 =
      List.replicate 197 'a' ++ [ '.', '.', '.' ] ∧
    ¬ cut_on_space_boundary (List.replicate 201 'a') 200 :=
  ⟨by decide, by decide, by decide⟩

/-- C3 (amended): `truncate_text` with the 200-character limit returns the
string unchanged when its length is at most 200; otherwise it returns at most
200 characters ending in the ellipsis marker, and the cut point falls on a
whitespace boundary whenever the first 197 characters contain a space — but
when they contain no space the result is exactly the first 197 characters
plus the ellipsis, splitting the word. -/
theorem claim_C3_truncation_amended (t : List Char) :
    (t.length ≤ 200 → truncate_text t 200 = t) ∧
    (200 < t.length →
      (truncate_text t 200).length ≤ 200 ∧
      ([ '.', '.', '.' ].isSuffixOf (truncate_text t 200)) = true ∧
      (' ' ∈ t.take 197 → cut_on_space_boundary t 200) ∧
      (' ' ∉ t.take 197 → truncate_text t 200 = t.take 197 ++ [ '.', '.', '.' ])) := by
  constructor
  · intro h
    unfold truncate_text
    rw [if_pos h]
  · intro h
    have htr : truncate_text t 200 = beforeLastSpace (t.take 197) ++ [ '.', '.', '.' ] := by
      unfold truncate_text
      rw [if_neg (Nat.not_le.mpr h)]
    refine ⟨?_, ?_, ?_, ?_⟩
    · rw [htr]
      rw [List.length_append]
      have h1 := beforeLastSpace_length_le (t.take 197)
      have h2 : (t.take 197).length ≤ 197 := by
        rw [List.length_take]
        exact Nat.min_le_left _ _
      simp only [List.length_cons, List.length_nil]
      omega
    · rw [htr, List.isSuffixOf_iff_suffix]
      exact List.suffix_append _ _
    · intro hsp
      obtain ⟨s, hs, hns⟩ := beforeLastSpace_split (t.take 197) hsp
      have hk : keptPart t 200 = beforeLastSpace (t.take 197) := keptPart_eq t h
      have hlen : (beforeLastSpace (t.take 197)).length < 197 := by
        have hcongr := congrArg List.length hs
        rw [List.length_append, List.length_cons] at hcongr
        have h197 : (t.take 197).length = 197 := by
          rw [List.length_take]
          exact Nat.min_eq_left (by omega)
        omega
      constructor
      · rw [hk, List.isPrefixOf_iff_prefix]
        exact List.IsPrefix.trans ⟨' ' :: s, hs.symm⟩ (List.take_prefix 197 t)
      · right
        rw [hk]
        have hmem : (t.take 197)[(beforeLastSpace (t.take 197)).length]? = some ' ' := by
          set b := beforeLastSpace (t.take 197) with hb
          rw [hs, List.getElem?_append_right (Nat.le_refl _)]
          simp
        rw [List.getElem?_take, if_pos hlen] at hmem
        exact hmem
    · intro hnsp
      rw [htr, beforeLastSpace_no_space _ hnsp]

theorem claim_C3_truncation_amended_witness :
    (([ 'w', 'x' ] : List Char).length ≤ 200 ∧
      truncate_text [ 'w', 'x' ] 200 = [ 'w', 'x' ]) ∧
    (200 < (List.replicate 100 'a' ++ ' ' :: List.replicate 150 'b').length ∧
      ' ' ∈ (List.replicate 100 'a' ++ ' ' :: List.replicate 150 'b').take 197 ∧
      cut_on_space_boundary (List.replicate 100 'a' ++ ' ' :: List.replicate 150 'b') 200) :=
  ⟨⟨by decide, (claim_C3_truncation_amended [ 'w', 'x' ]).1 (by decide)⟩,
    by decide, by decide,
    ((claim_C3_truncation_amended
        (List.replicate 100 'a' ++ ' ' :: List.replicate 150 'b')).2
      (by decide)).2.2.1 (by decide)⟩

/-- C7, counterexample to the claim as stated: `/latest` on an empty cache is
not read-only — the refresh-if-empty policy makes it refresh and thereby
mutate the cache when a fetch brings content back. -/
theorem claim_C7_cex :
    Cache.shows_cache
        (HandlerEffect.cache
          (latest_command (.ok [itemA]) (.ok [])
            { shows_cache := [], movies_cache := [] })) ≠ [] := by decide

/-- C7 (amended): every command handler except `post` is read-only against
the content cache whenever both cached lists are nonempty (`start` and `help`
unconditionally); when a required list is empty, a handler first refreshes —
and thus mutates — the cache under the refresh-if-empty policy. -/
theorem claim_C7_handlers_readonly_amended (so mo : HttpOutcome)
    (args : List (List Char)) (pick : Nat) (c : Cache)
    (hs : c.shows_cache ≠ []) (hm : c.movies_cache ≠ []) :
    (start_command c).cache = c ∧
    (help_command c).cache = c ∧
    (latest_command so mo c).cache = c ∧
    (movies_command so mo c).cache = c ∧
    (shows_command so mo c).cache = c ∧
    (search_command args so mo c).cache = c ∧
    (random_command so mo pick c).cache = c := by
  refine ⟨rfl, rfl, ?_, ?_, ?_, ?_, ?_⟩
  · simp [latest_command, hs, hm]
  · simp [movies_command, hm]
  · simp [shows_command, hs]
  · cases args with
    | nil => rfl
    | cons a as =>
      rw [search_command, if_neg (by simp)]
      simp only [if_neg (by simp [hs, hm] : ¬ (c.shows_cache = [] ∨ c.movies_cache = []))]
      split <;> rfl
  · rw [random_command]
    simp only [if_neg (by simp [hs, hm] : ¬ (c.shows_cache = [] ∨ c.movies_cache = []))]
    split <;> rfl

theorem claim_C7_handlers_readonly_amended_witness :
    (Cache.shows_cache { shows_cache := [itemA], movies_cache := [itemB] } ≠ [] ∧
      Cache.movies_cache { shows_cache := [itemA], movies_cache := [itemB] } ≠ []) ∧
    ((start_command { shows_cache := [itemA], movies_cache := [itemB] }).cache =
        { shows_cache := [itemA], movies_cache := [itemB] } ∧
      (help_command { shows_cache := [itemA], movies_cache := [itemB] }).cache =
        { shows_cache := [itemA], movies_cache := [itemB] } ∧
      (latest_command .netFail .netFail
          { shows_cache := [itemA], movies_cache := [itemB] }).cache =
        { shows_cache := [itemA], movies_cache := [itemB] } ∧
      (movies_command .netFail .netFail
          { shows_cache := [itemA], movies_cache := [itemB] }).cache =
        { shows_cache := [itemA], movies_cache := [itemB] } ∧
      (shows_command .netFail .netFail
          { shows_cache := [itemA], movies_cache := [itemB] }).cache =
        { shows_cache := [itemA], movies_cache := [itemB] } ∧
      (search_command [ [ 'a' ] ] .netFail .netFail
          { shows_cache := [itemA], movies_cache := [itemB] }).cache =
        { shows_cache := [itemA], movies_cache := [itemB] } ∧
      (random_command .netFail .netFail 0
          { shows_cache := [itemA], movies_cache := [itemB] }).cache =
        { shows_cache := [itemA], movies_cache := [itemB] }) :=
  ⟨⟨by decide, by decide⟩,
    claim_C7_handlers_readonly_amended .netFail .netFail [ [ 'a' ] ] 0
      { shows_cache := [itemA], movies_cache := [itemB] } (by decide) (by decide)⟩

/-- C2, counterexample to the claim as stated: when the loaded ledger
document lacks the "shows" key, recording fails after each delivery and the
counter never advances, so a run over six fresh shows performs six successful
sends — more than the cap of 5. -/
theorem claim_C2_cex :
    ¬ (auto_post_job sixItems [] (fun _ => true) (fun _ => true)
          (some { shows := none, movies := some [] })).sent.length ≤ max_posts_per_run := by
  decide

/-- C2 (amended): provided the loaded ledger document has an entry for each
kind, a pipeline run performs at most 5 successful sends; the ledger gains
exactly the ids of the items actually sent (so the items skipped after the
cap is reached are left untouched, not marked posted); and the moment the
counter reaches the cap on the shows scan, the movie scan does nothing at
all. -/
theorem claim_C2_cap_amended (shows movies : List Item) (okS okM : Item → Bool)
    (file : Option Ledger)
    (hs : ((load_posted_content file).get Kind.shows).isSome)
    (hm : ((load_posted_content file).get Kind.movies).isSome) :
    (auto_post_job shows movies okS okM file).sent.length ≤ max_posts_per_run ∧
    (∃ tlS, (auto_post_job shows movies okS okM file).posted.get Kind.shows =
        some ((((load_posted_content file).get Kind.shows).getD []) ++ tlS) ∧
      ∀ i ∈ tlS, (Kind.shows, i) ∈ (auto_post_job shows movies okS okM file).sent) ∧
    (∃ tlM, (auto_post_job shows movies okS okM file).posted.get Kind.movies =
        some ((((load_posted_content file).get Kind.movies).getD []) ++ tlM) ∧
      ∀ i ∈ tlM, (Kind.movies, i) ∈ (auto_post_job shows movies okS okM file).sent) ∧
    ((postItems Kind.shows okS shows (initState file)).count ≥ max_posts_per_run →
      auto_post_job shows movies okS okM file =
        postItems Kind.shows okS shows (initState file)) := by
  obtain ⟨ls, hls⟩ := Option.isSome_iff_exists.mp hs
  obtain ⟨lm, hlm⟩ := Option.isSome_iff_exists.mp hm
  have hs0 : ((initState file).posted.get Kind.shows).isSome := hs
  have hm0 : ((initState file).posted.get Kind.movies).isSome := hm
  have hm1 : ((postItems Kind.shows okS shows (initState file)).posted.get Kind.movies)
      = some lm := by
    rw [postItems_other_kind Kind.shows Kind.movies okS shows (initState file)
      (by intro hx; cases hx)]
    exact hlm
  rw [auto_post_job_eq]
  refine ⟨?_, ?_, ?_, ?_⟩
  · have hc1 := postItems_sent_count Kind.shows okS shows (initState file) hs0
    have hc2 := postItems_sent_count Kind.movies okM movies
      (postItems Kind.shows okS shows (initState file)) (by rw [hm1]; rfl)
    have hl1 := postItems_count_le Kind.shows okS shows (initState file)
      (by simp [initState, max_posts_per_run])
    have hl2 := postItems_count_le Kind.movies okM movies
      (postItems Kind.shows okS shows (initState file)) hl1
    simp only [initState, List.length_nil] at hc1 hc2 hl1 hl2 ⊢
    omega
  · obtain ⟨tl1, htl1, hmem1⟩ := postItems_ledger_growth Kind.shows okS shows
      (initState file) ls hls
    refine ⟨tl1, ?_, ?_⟩
    · rw [postItems_other_kind Kind.movies Kind.shows okM movies _
        (by intro hx; cases hx), htl1, hls]
      rfl
    · intro i hi
      obtain ⟨tl2, htl2⟩ := postItems_sent_grows Kind.movies okM movies
        (postItems Kind.shows okS shows (initState file))
      rw [htl2]
      exact List.mem_append.mpr (Or.inl (hmem1 i hi))
  · obtain ⟨tl1, htl1, hmem1⟩ := postItems_ledger_growth Kind.movies okM movies
      (postItems Kind.shows okS shows (initState file)) lm hm1
    refine ⟨tl1, ?_, ?_⟩
    · rw [htl1, hlm]
      rfl
    · exact hmem1
  · intro hcap
    exact postItems_capstop Kind.movies okM movies _ hcap

theorem claim_C2_cap_amended_witness :
    (((load_posted_content (some { shows := some [], movies := some [] })).get
          Kind.shows).isSome ∧
      ((load_posted_content (some { shows := some [], movies := some [] })).get
          Kind.movies).isSome) ∧
    ((auto_post_job sixItems [itemA] (fun _ => true) (fun _ => true)
        (some { shows := some [], movies := some [] })).sent.length ≤ max_posts_per_run ∧
      (∃ tlS, (auto_post_job sixItems [itemA] (fun _ => true) (fun _ => true)
            (some { shows := some [], movies := some [] })).posted.get Kind.shows =
          some ((((load_posted_content (some { shows := some [], movies := some [] })).get
            Kind.shows).getD []) ++ tlS) ∧
        ∀ i ∈ tlS, (Kind.shows, i) ∈ (auto_post_job sixItems [itemA] (fun _ => true)
          (fun _ => true) (some { shows := some [], movies := some [] })).sent) ∧
      (∃ tlM, (auto_post_job sixItems [itemA] (fun _ => true) (fun _ => true)
            (some { shows := some [], movies := some [] })).posted.get Kind.movies =
          some ((((load_posted_content (some { shows := some [], movies := some [] })).get
            Kind.movies).getD []) ++ tlM) ∧
        ∀ i ∈ tlM, (Kind.movies, i) ∈ (auto_post_job sixItems [itemA] (fun _ => true)
          (fun _ => true) (some { shows := some [], movies := some [] })).sent) ∧
      ((postItems Kind.shows (fun _ => true) sixItems
            (initState (some { shows := some [], movies := some [] }))).count ≥
          max_posts_per_run →
        auto_post_job sixItems [itemA] (fun _ => true) (fun _ => true)
            (some { shows := some [], movies := some [] }) =
          postItems Kind.shows (fun _ => true) sixItems
            (initState (some { shows := some [], movies := some [] })))) :=
  ⟨⟨by decide, by decide⟩,
    claim_C2_cap_amended sixItems [itemA] (fun _ => true) (fun _ => true)
      (some { shows := some [], movies := some [] }) (by decide) (by decide)⟩

/-- C10: when the loaded ledger document lacks the entry for a kind (here
"shows"), the defaulted dedup lookup treats every cached item of that kind as
new, so each item whose send succeeds is delivered to the channel — but the
recording step fails inside the per-item handler: the run ends with the
ledger, persisted file and counter all unchanged, the delivered ids never
recorded, and a subsequent run (with any send outcomes) re-delivers exactly
the same items. -/
theorem claim_C10_missing_key (L : Ledger) (shows : List Item)
    (okS okM okS2 okM2 : Item → Bool) (h : L.shows = none) :
    (auto_post_job shows [] okS okM (some L)).posted = L ∧
    (auto_post_job shows [] okS okM (some L)).file = some L ∧
    (auto_post_job shows [] okS okM (some L)).count = 0 ∧
    (auto_post_job shows [] okS okM (some L)).sent =
      (shows.filter okS).map (fun it => (Kind.shows, it.id)) ∧
    (auto_post_job shows [] okS2 okM2
        ((auto_post_job shows [] okS okM (some L)).file)).sent =
      (shows.filter okS2).map (fun it => (Kind.shows, it.id)) := by
  have key : ∀ okX okY : Item → Bool,
      auto_post_job shows [] okX okY (some L) =
        { posted := L, file := some L, count := 0,
          sent := (shows.filter okX).map (fun it => (Kind.shows, it.id)) } := by
    intro okX okY
    rw [auto_post_job_eq]
    have h0 : (initState (some L)).posted.get Kind.shows = none := h
    rw [postItems_missing_key Kind.shows okX shows (initState (some L)) h0
      (by simp [initState, max_posts_per_run])]
    simp [initState, load_posted_content, postItems]
  refine ⟨?_, ?_, ?_, ?_, ?_⟩
  · rw [key okS okM]
  · rw [key okS okM]
  · rw [key okS okM]
  · rw [key okS okM]
  · rw [key okS okM]
    exact congrArg RunState.sent (key okS2 okM2)

theorem claim_C10_missing_key_witness :
    (Ledger.shows { shows := none, movies := some [] } = none) ∧
    ((auto_post_job [itemA] [] (fun _ => true) (fun _ => true)
        (some { shows := none, movies := some [] })).posted =
      { shows := none, movies := some [] } ∧
    (auto_post_job [itemA] [] (fun _ => true) (fun _ => true)
        (some { shows := none, movies := some [] })).file =
      some { shows := none, movies := some [] } ∧
    (auto_post_job [itemA] [] (fun _ => true) (fun _ => true)
        (some { shows := none, movies := some [] })).count = 0 ∧
    (auto_post_job [itemA] [] (fun _ => true) (fun _ => true)
        (some { shows := none, movies := some [] })).sent =
      ([itemA].filter (fun _ => true)).map (fun it => (Kind.shows, it.id)) ∧
    (auto_post_job [itemA] [] (fun _ => true) (fun _ => true)
        ((auto_post_job [itemA] [] (fun _ => true) (fun _ => true)
          (some { shows := none, movies := some [] })).file)).sent =
      ([itemA].filter (fun _ => true)).map (fun it => (Kind.shows, it.id))) :=
  ⟨rfl,
    claim_C10_missing_key { shows := none, movies := some [] } [itemA]
      (fun _ => true) (fun _ => true) (fun _ => true) (fun _ => true) rfl⟩

/-- C1, counterexample to the claim as stated: with a persisted ledger
document lacking the "shows" entry, a run delivers the fresh show but its ID
is not added to the ledger set for shows (which stays absent, with the
defaulted lookup empty), and a second run over the unchanged catalog and the
persisted ledger delivers it again — not zero additional sends. -/
theorem claim_C1_cex :
    (auto_post_job [itemA] [] (fun _ => true) (fun _ => true)
        (some { shows := none, movies := some [] })).sent = [(Kind.shows, some 1)] ∧
    ((auto_post_job [itemA] [] (fun _ => true) (fun _ => true)
        (some { shows := none, movies := some [] })).posted.get Kind.shows).getD [] = [] ∧
    (auto_post_job [itemA] [] (fun _ => true) (fun _ => true)
        ((auto_post_job [itemA] [] (fun _ => true) (fun _ => true)
          (some { shows := none, movies := some [] })).file)).sent =
      [(Kind.shows, some 1)] :=
  ⟨by decide, by decide, by decide⟩

/-- C1 (amended): provided the loaded ledger document has an entry for each
kind: the persisted document always equals the in-memory ledger after the run
(unless nothing was sent at all, in which case it was never rewritten); every
delivered (kind, id) pair is recorded in the ledger set of its kind; an ID
already present in a kind's ledger set is never selected for delivery for
that kind; and — when every send succeeds and the ledger-absent items number
at most the cap of 5 — a second run over the unchanged catalog from the
persisted ledger performs zero additional sends, whatever its own send
outcomes. -/
theorem claim_C1_dedup_amended (shows movies : List Item) (okS okM : Item → Bool)
    (file : Option Ledger)
    (hs : ((load_posted_content file).get Kind.shows).isSome)
    (hm : ((load_posted_content file).get Kind.movies).isSome) :
    ((auto_post_job shows movies okS okM file).file =
        save_posted_content (auto_post_job shows movies okS okM file).posted
          (auto_post_job shows movies okS okM file).file ∨
      (auto_post_job shows movies okS okM file).sent = []) ∧
    (∀ p ∈ (auto_post_job shows movies okS okM file).sent,
      p.2 ∈ ((auto_post_job shows movies okS okM file).posted.get p.1).getD []) ∧
    (∀ i ∈ ((load_posted_content file).get Kind.shows).getD [],
      (Kind.shows, i) ∉ (auto_post_job shows movies okS okM file).sent) ∧
    (∀ i ∈ ((load_posted_content file).get Kind.movies).getD [],
      (Kind.movies, i) ∉ (auto_post_job shows movies okS okM file).sent) ∧
    ((∀ it ∈ shows, okS it = true) → (∀ it ∈ movies, okM it = true) →
      countNew (((load_posted_content file).get Kind.shows).getD []) shows +
          countNew (((load_posted_content file).get Kind.movies).getD []) movies ≤
        max_posts_per_run →
      ∀ okS2 okM2 : Item → Bool,
        (auto_post_job shows movies okS2 okM2
          ((auto_post_job shows movies okS okM file).file)).sent = []) := by
  have hs0 : ((initState file).posted.get Kind.shows).isSome := hs
  have hm0 : ((initState file).posted.get Kind.movies).isSome := hm
  have hmov : Kind.movies ≠ Kind.shows := by intro hx; cases hx
  have hshw : Kind.shows ≠ Kind.movies := by intro hx; cases hx
  have hm1some : (postItems Kind.shows okS shows (initState file)).posted.get Kind.movies =
      (initState file).posted.get Kind.movies :=
    postItems_other_kind Kind.shows Kind.movies okS shows (initState file) hmov
  have hm1 : ((postItems Kind.shows okS shows (initState file)).posted.get
      Kind.movies).isSome := by
    rw [hm1some]
    exact hm0
  have hsent0 : (initState file).sent = [] := rfl
  have hfile := postItems_file_inv Kind.movies okM movies
    (postItems Kind.shows okS shows (initState file)) hm1
    (postItems_file_inv Kind.shows okS shows (initState file) hs0 (Or.inr hsent0))
  rw [auto_post_job_eq]
  refine ⟨hfile, ?_, ?_, ?_, ?_⟩
  · exact postItems_sent_recorded Kind.movies okM movies
      (postItems Kind.shows okS shows (initState file)) hm1
      (postItems_sent_recorded Kind.shows okS shows (initState file) hs0
        (by rw [hsent0]; intro p hp; cases hp))
  · intro i hi hmem
    rcases postItems_sent_kind Kind.movies okM movies
        (postItems Kind.shows okS shows (initState file)) (Kind.shows, i) hmem with h3 | h3
    · have := postItems_no_reselect Kind.shows okS shows (initState file) i hi h3
      rw [hsent0] at this
      cases this
    · exact hshw h3
  · intro i hi hmem
    have hi1 : i ∈ ((postItems Kind.shows okS shows (initState file)).posted.get
        Kind.movies).getD [] := by
      rw [hm1some]
      exact hi
    have hback := postItems_no_reselect Kind.movies okM movies
      (postItems Kind.shows okS shows (initState file)) i hi1 hmem
    rcases postItems_sent_kind Kind.shows okS shows (initState file) (Kind.movies, i)
        hback with h4 | h4
    · rw [hsent0] at h4
      cases h4
    · exact hmov h4
  · intro hokS hokM hcap okS2 okM2
    have e1 : (initState file).posted.get Kind.shows =
        (load_posted_content file).get Kind.shows := rfl
    have e2 : (initState file).posted.get Kind.movies =
        (load_posted_content file).get Kind.movies := rfl
    have e0 : (initState file).count = 0 := rfl
    have hcapS : (initState file).count +
        countNew (((initState file).posted.get Kind.shows).getD []) shows ≤
        max_posts_per_run := by
      rw [e0, e1]
      omega
    have hcompS := postItems_complete Kind.shows okS shows (initState file) hs0 hokS hcapS
    have hcapM : (postItems Kind.shows okS shows (initState file)).count +
        countNew (((postItems Kind.shows okS shows (initState file)).posted.get
          Kind.movies).getD []) movies ≤ max_posts_per_run := by
      have hb := postItems_count_bound Kind.shows okS shows (initState file) hs0
      rw [e0, e1] at hb
      rw [hm1some, e2]
      omega
    have hcompM := postItems_complete Kind.movies okM movies
      (postItems Kind.shows okS shows (initState file)) hm1 hokM hcapM
    have hSr : ∀ it ∈ shows, it.id ∈
        ((postItems Kind.movies okM movies
          (postItems Kind.shows okS shows (initState file))).posted.get
            Kind.shows).getD [] := by
      intro it hit
      exact postItems_mem_getD Kind.movies Kind.shows okM movies
        (postItems Kind.shows okS shows (initState file)) it.id (hcompS it hit)
    have hload : load_posted_content
        ((postItems Kind.movies okM movies
          (postItems Kind.shows okS shows (initState file))).file) =
        (postItems Kind.movies okM movies
          (postItems Kind.shows okS shows (initState file))).posted := by
      rcases hfile with hf | hsent
      · rw [hf]
        rfl
      · have h1 : (postItems Kind.shows okS shows (initState file)).sent = [] := by
          obtain ⟨tl, htl⟩ := postItems_sent_grows Kind.movies okM movies
            (postItems Kind.shows okS shows (initState file))
          rw [htl] at hsent
          exact (List.append_eq_nil.mp hsent).1
        have hr1 := postItems_sent_fixed_eq Kind.movies okM movies
          (postItems Kind.shows okS shows (initState file)) (by rw [h1, hsent])
        have hst1 := postItems_sent_fixed_eq Kind.shows okS shows (initState file)
          (by rw [h1, hsent0])
        rw [hr1, hst1]
        rfl
    have hSmem2 : ∀ it ∈ shows, it.id ∈
        ((initState ((postItems Kind.movies okM movies
          (postItems Kind.shows okS shows (initState file))).file)).posted.get
            Kind.shows).getD [] := by
      intro it hit
      show it.id ∈ ((load_posted_content ((postItems Kind.movies okM movies
        (postItems Kind.shows okS shows (initState file))).file)).get Kind.shows).getD []
      rw [hload]
      exact hSr it hit
    have hMmem2 : ∀ it ∈ movies, it.id ∈
        ((initState ((postItems Kind.movies okM movies
          (postItems Kind.shows okS shows (initState file))).file)).posted.get
            Kind.movies).getD [] := by
      intro it hit
      show it.id ∈ ((load_posted_content ((postItems Kind.movies okM movies
        (postItems Kind.shows okS shows (initState file))).file)).get Kind.movies).getD []
      rw [hload]
      exact hcompM it hit
    rw [auto_post_job_eq,
      postItems_skip_all Kind.shows okS2 shows _ hSmem2,
      postItems_skip_all Kind.movies okM2 movies _ hMmem2]
    rfl

theorem claim_C1_dedup_amended_witness :
    (((load_posted_content (some { shows := some [], movies := some [] })).get
          Kind.shows).isSome ∧
      ((load_posted_content (some { shows := some [], movies := some [] })).get
          Kind.movies).isSome) ∧
    (auto_post_job [itemA] [itemB] (fun _ => true) (fun _ => true)
        ((auto_post_job [itemA] [itemB] (fun _ => true) (fun _ => true)
          (some { shows := some [], movies := some [] })).file)).sent = [] :=
  ⟨⟨by decide, by decide⟩,
    (claim_C1_dedup_amended [itemA] [itemB] (fun _ => true) (fun _ => true)
        (some { shows := some [], movies := some [] }) (by decide) (by decide)).2.2.2.2
      (by decide) (by decide) (by decide) (fun _ => true) (fun _ => true)⟩

end StreamVault
